import Mathlib

/-!
Verification of the propagation/readout engine of the higher-order-EGP
repository (src/models/gnn.py, src/models/conv/gin.py), shallowly embedded
over rational scalars.

Modelling conventions:
* Scalars are `ℚ`.  A node-embedding matrix is `Fin n → Fin d → ℚ`.
* Learned maps whose internals the claims never inspect (the two-layer
  feed-forward sublayer `self.mlp` of `GINConv`, encoders, the SumConv
  transform) are carried as opaque function-valued parameters.
* `BatchNorm1d` is modelled in evaluation mode: a per-channel affine map
  `v ↦ scale * v + shift` (the composite of `γ (v - μ)/sqrt(σ² + ε) + β`).
* `F.dropout` is modelled in evaluation mode (`training=False`), where it is
  the identity; all statements are about the inference-time forward pass.
* Edge features are carried per edge, already encoded to `Vec d`
  (`edge_embedding = self.edge_encoder(edge_attr)` in gin.py line 35);
  `none` is the `edge_attr is None` case.
-/

/-- A `d`-dimensional embedding vector. -/
abbrev Vec (d : ℕ) := Fin d → ℚ

/-- A node-embedding matrix for `n` nodes: one `Vec d` per node. -/
abbrev NodeT (n d : ℕ) := Fin n → Vec d

/-- An edge list: each edge is a (source, target) pair with an optional
encoded edge-feature vector. -/
abbrev EdgeList (n d : ℕ) := List ((Fin n × Fin n) × Option (Vec d))

/-- `F.relu` on one scalar (`max q 0`, written by comparison so that it
evaluates by kernel reduction). -/
def relu (q : ℚ) : ℚ := if q ≤ 0 then 0 else q

lemma relu_eq_max (q : ℚ) : relu q = max q 0 := by
  rw [relu]
  rcases le_or_lt q 0 with h | h
  · simp [h, max_eq_right h]
  · simp [not_le.mpr h, max_eq_left h.le]

/-- `GINConv.message` (gin.py lines 54-58): `relu(x_j + edge_attr)` when an
edge feature is present, `relu(x_j)` otherwise. -/
def ginMessage (xj : Vec d) (ea : Option (Vec d)) : Vec d :=
  match ea with
  | some a => fun k => relu (xj k + a k)
  | none => fun k => relu (xj k)

/-- One step of the scatter-add performed by `MessagePassing.propagate` with
`aggr="add"`: add the message of edge `e` into the slot of its target node. -/
def scatterStep (x : NodeT n d) (acc : NodeT n d) (e : (Fin n × Fin n) × Option (Vec d)) :
    NodeT n d :=
  fun i k => if i = e.1.2 then acc i k + ginMessage (x e.1.1) e.2 k else acc i k

/-- `self.propagate(edge_index, x=x, edge_attr=edge_embedding)` with
`aggr="add"` and flow `source_to_target`: scatter-add all edge messages into
their target nodes, starting from zero. -/
def aggregate (x : NodeT n d) (edges : EdgeList n d) : NodeT n d :=
  edges.foldl (scatterStep x) (fun _ _ => 0)

/-- Specification-side aggregation: each target node receives the sum, over
its incoming edges, of `relu(source_vector + encoded_edge_vector)`
(`relu(source_vector)` when the edge carries no feature). -/
def aggSpec (x : NodeT n d) (edges : EdgeList n d) : NodeT n d :=
  fun i k => ((edges.filter (fun e => e.1.2 = i)).map
    (fun e => ginMessage (x e.1.1) e.2 k)).sum

/-- Parameters of one `GINConv` instance: the learned scalar `eps` and the
two-layer feed-forward sublayer `self.mlp` (kept opaque). -/
structure ConvParams (d : ℕ) where
  eps : ℚ
  mlp : Vec d → Vec d

/-- The `update_nodes` selector of `GINConv.forward`. -/
inductive UpdateNodes
  | original
  | expander
deriving DecidableEq

/-- Input masking (gin.py lines 40-41): when the `masking` flag is set,
multiply every node row by its mask bit (zeroing hub rows, mask = 0). -/
def maskedInput (x : NodeT n d) (mask : Fin n → ℚ) (msk : Bool) : NodeT n d :=
  if msk then fun i k => x i k * mask i else x

/-- Row-wise multiplication by the node mask (`h * expander_node_mask`). -/
def maskRows (h : NodeT n d) (mask : Fin n → ℚ) : NodeT n d :=
  fun i k => h i k * mask i

/-- The directional update of `GINConv.forward` (gin.py lines 45-50):
`expander` keeps mask=1 rows at `x`, `original` keeps mask=0 rows at `x`,
by multiplying with the mask and its complement. -/
def dirUpdate (mask : Fin n → ℚ) : UpdateNodes → NodeT n d → NodeT n d → NodeT n d
  | .expander, out, x => fun i k => (1 - mask i) * out i k + mask i * x i k
  | .original, out, x => fun i k => mask i * out i k + (1 - mask i) * x i k

/-- The pre-update output `out` of `GINConv.forward` (gin.py line 43):
`self.mlp((1 + self.eps) * x + self.propagate(edge_index, x, edge_attr))`,
taking the (possibly already masked) input `x`. -/
def ginconvOut (p : ConvParams d) (x : NodeT n d) (edges : EdgeList n d) : NodeT n d :=
  fun i => p.mlp (fun k => (1 + p.eps) * x i k + aggregate x edges i k)

/-- `GINConv.forward` (gin.py lines 33-52): mask the input if requested,
compute the pre-update output, then apply the directional update. -/
def ginconv (p : ConvParams d) (x : NodeT n d) (edges : EdgeList n d)
    (msk : Bool) (mask : Fin n → ℚ) (upd : UpdateNodes) : NodeT n d :=
  let y := maskedInput x mask msk
  dirUpdate mask upd (ginconvOut p y edges) y

/-- Specification-side masked input: `h` with every mask=0 row zeroed if and
only if the masking flag is set. -/
def specMasked (x : NodeT n d) (mask : Fin n → ℚ) (msk : Bool) : NodeT n d :=
  fun i => if msk ∧ mask i = 0 then (fun _ => 0) else x i

/-- A mask is binary when every entry is exactly 0 or 1. -/
def BinaryMask (mask : Fin n → ℚ) : Prop := ∀ i, mask i = 0 ∨ mask i = 1

lemma foldl_scatterStep (x : NodeT n d) (edges : EdgeList n d) :
    ∀ (acc : NodeT n d) (i : Fin n) (k : Fin d),
      edges.foldl (scatterStep x) acc i k = acc i k + aggSpec x edges i k := by
  induction edges with
  | nil =>
    intro acc i k
    simp [aggSpec]
  | cons e es ih =>
    intro acc i k
    rw [List.foldl_cons, ih]
    by_cases h : e.1.2 = i
    · simp [scatterStep, aggSpec, h, add_assoc]
    · have h' : ¬ i = e.1.2 := fun hh => h hh.symm
      simp [scatterStep, aggSpec, h, h']

/-- The scatter-add aggregation computes, per target node, the sum of the
messages of its incoming edges. -/
lemma aggregate_eq_aggSpec (x : NodeT n d) (edges : EdgeList n d) :
    aggregate x edges = aggSpec x edges := by
  funext i k
  rw [aggregate, foldl_scatterStep]
  simp

lemma maskedInput_eq_specMasked (x : NodeT n d) (mask : Fin n → ℚ) (msk : Bool)
    (hbin : BinaryMask mask) : maskedInput x mask msk = specMasked x mask msk := by
  funext i k
  cases msk with
  | false => simp [maskedInput, specMasked]
  | true =>
    rcases hbin i with h0 | h1
    · simp [maskedInput, specMasked, h0]
    · have : ¬ (mask i = 0) := by rw [h1]; norm_num
      simp [maskedInput, specMasked, h1, this]

/-- C3: the pre-update output of the additive convolution equals the
feed-forward sublayer applied to `(1+eps) * h' + A`, where `h'` is `h` with
mask=0 rows zeroed exactly when the masking flag is set, and `A` gives each
target node the sum of `relu(source + edge)` (or `relu(source)`) over its
incoming edges. -/
theorem ginconv_premask_formula (p : ConvParams d) (x : NodeT n d)
    (edges : EdgeList n d) (msk : Bool) (mask : Fin n → ℚ)
    (hbin : BinaryMask mask) :
    ginconvOut p (maskedInput x mask msk) edges =
      fun i => p.mlp (fun k =>
        (1 + p.eps) * specMasked x mask msk i k +
          aggSpec (specMasked x mask msk) edges i k) := by
  rw [maskedInput_eq_specMasked x mask msk hbin]
  funext i
  rw [ginconvOut, aggregate_eq_aggSpec]

/-- Witness for `ginconv_premask_formula` at a concrete input: two nodes, one
edge with a feature, masking on, mask = [1, 0]. -/
theorem ginconv_premask_formula_witness :
    BinaryMask (fun i : Fin 2 => if i.val = 0 then (1 : ℚ) else 0) ∧
      ginconvOut ⟨0, fun v => v⟩
          (maskedInput (fun _ _ => (2 : ℚ))
            (fun i : Fin 2 => if i.val = 0 then (1 : ℚ) else 0) true)
          [((⟨0, by norm_num⟩, ⟨1, by norm_num⟩), some (fun _ => (3 : ℚ)))] =
        fun i => (fun v : Vec 1 => v) (fun k =>
          (1 + 0) * specMasked (fun _ _ => (2 : ℚ))
              (fun i : Fin 2 => if i.val = 0 then (1 : ℚ) else 0) true i k +
            aggSpec (specMasked (fun _ _ => (2 : ℚ))
              (fun i : Fin 2 => if i.val = 0 then (1 : ℚ) else 0) true)
              [((⟨0, by norm_num⟩, ⟨1, by norm_num⟩), some (fun _ => (3 : ℚ)))] i k) :=
  ⟨fun i => by fin_cases i <;> simp,
    ginconv_premask_formula ⟨0, fun v => v⟩ (fun _ _ => (2 : ℚ)) _ true _
      (fun i => by fin_cases i <;> simp)⟩

/-- Evaluation-mode `BatchNorm1d`: a per-channel affine map. -/
structure BN (d : ℕ) where
  scale : Vec d
  shift : Vec d

/-- Apply an evaluation-mode batch normalization row by row. -/
def bnApply (b : BN d) (h : NodeT n d) : NodeT n d :=
  fun i k => b.scale k * h i k + b.shift k

/-- `GNN_node_expander.propagate` (gnn.py lines 170-181): convolution, batch
normalization, then (unless `no_act`) ReLU; dropout is the identity in
evaluation mode; finally the residual connection when enabled. -/
def propagateStep (conv : ConvParams d) (bn : BN d) (residual : Bool)
    (h : NodeT n d) (edges : EdgeList n d) (no_act msk : Bool)
    (mask : Fin n → ℚ) (upd : UpdateNodes) : NodeT n d :=
  let h1 := ginconv conv h edges msk mask upd
  let h2 := bnApply bn h1
  let h3 := if no_act then h2 else fun i k => relu (h2 i k)
  if residual then fun i k => h3 i k + h i k else h3

/-- The `expander_edge_handling` configuration strings of
`GNN_node_expander.__init__`. -/
inductive EdgeHandling
  | masking
  | learnFeatures
  | summation
  | summationMlp
deriving DecidableEq

/-- Engine-wide configuration of `GNN_node_expander`. -/
structure EngineCfg where
  residual : Bool
  strategy : EdgeHandling

/-- Modelled from the spec: `SumConv` (src/models/conv/summation.py is not
among the sources).  Per target node it returns the sum of source-node
vectors over the expander edges directed into it, optionally passed through
a feed-forward sublayer when the with-transform (`summation-mlp`) mode is
selected. -/
def sumConv (tf : Option (Vec d → Vec d)) (h : NodeT n d)
    (edges : List (Fin n × Fin n)) : NodeT n d :=
  let s : NodeT n d := fun i k => ((edges.filter (fun e => e.2 = i)).map
    (fun e => h e.1 k)).sum
  match tf with
  | some f => fun i => f (s i)
  | none => s

/-- The summation-strategy hub phase (gnn.py lines 217-220): zero hub rows of
`h`, run the summation layer on the result, and add its contribution back
into hub rows only (`h = h + h_edge * (1 - mask)`).  The summation layer is a
parameter (`sFn`), instantiated with `sumConv` by the engine. -/
def hubPhaseSummation (sFn : NodeT n d → List (Fin n × Fin n) → NodeT n d)
    (h : NodeT n d) (mask : Fin n → ℚ) (expE : List (Fin n × Fin n)) : NodeT n d :=
  let hm := maskRows h mask
  let hEdge := sFn hm expE
  fun i k => hm i k + hEdge i k * (1 - mask i)

/-- Attach an empty edge feature to each expander edge (the expander-phase
convolutions are called without `edge_attr`). -/
def toAttrE (expE : List (Fin n × Fin n)) : EdgeList n d :=
  expE.map (fun e => (e, none))

/-- Per-layer learned parameters of `GNN_node_expander`: the main, left
(hub-phase) and right (return-phase) convolutions with their batch norms,
and the optional SumConv transform. -/
structure LayerP (d : ℕ) where
  main : ConvParams d
  bnMain : BN d
  left : ConvParams d
  bnLeft : BN d
  right : ConvParams d
  bnRight : BN d
  sumTf : Vec d → Vec d

/-- The main phase of one layer (gnn.py lines 207-211): convolution over the
original edges, `masking=False`, `update_nodes="original"`, with `no_act` on
the last layer. -/
def mainPhase (cfg : EngineCfg) (lp : LayerP d) (origE : EdgeList n d)
    (mask : Fin n → ℚ) (isLast : Bool) (h : NodeT n d) : NodeT n d :=
  propagateStep lp.main lp.bnMain cfg.residual h origE isLast false mask .original

/-- The hub phase of one layer (gnn.py lines 217-231): either the summation
integration or a convolution over the expander edges with
`update_nodes="expander"` (`masking=True` only for the `masking` strategy). -/
def hubPhase (cfg : EngineCfg) (lp : LayerP d) (h : NodeT n d)
    (mask : Fin n → ℚ) (expE : List (Fin n × Fin n)) : NodeT n d :=
  match cfg.strategy with
  | .summation => hubPhaseSummation (sumConv none) h mask expE
  | .summationMlp => hubPhaseSummation (sumConv (some lp.sumTf)) h mask expE
  | .masking =>
      propagateStep lp.left lp.bnLeft cfg.residual h (toAttrE expE) false true mask .expander
  | .learnFeatures =>
      propagateStep lp.left lp.bnLeft cfg.residual h (toAttrE expE) false false mask .expander

/-- Reversed expander edges (`expander_edge_index[[1, 0]]`, gnn.py:234). -/
def revEdges (expE : List (Fin n × Fin n)) : List (Fin n × Fin n) :=
  expE.map (fun e => (e.2, e.1))

/-- The return phase of one layer (gnn.py lines 234-238): convolution over
the reversed expander edges, `masking=False`, `update_nodes="original"`. -/
def returnPhase (cfg : EngineCfg) (lp : LayerP d) (expE : List (Fin n × Fin n))
    (mask : Fin n → ℚ) (h : NodeT n d) : NodeT n d :=
  propagateStep lp.right lp.bnRight cfg.residual h (toAttrE (revEdges expE))
    false false mask .original

/-- One layer of `GNN_node_expander.forward` (gnn.py lines 202-241): the main
phase, then — except on the last layer — the hub and return phases. -/
def layerStep (cfg : EngineCfg) (lp : LayerP d) (origE : EdgeList n d)
    (expE : List (Fin n × Fin n)) (mask : Fin n → ℚ) (isLast : Bool)
    (h : NodeT n d) : NodeT n d :=
  let hMain := mainPhase cfg lp origE mask isLast h
  if isLast then hMain
  else returnPhase cfg lp expE mask (hubPhase cfg lp hMain mask expE)

/-- Run the layers in sequence, producing the list of per-layer outputs
(the tail of `h_list`); the last list element is flagged as the last layer. -/
def runLayers (cfg : EngineCfg) (origE : EdgeList n d)
    (expE : List (Fin n × Fin n)) (mask : Fin n → ℚ) :
    List (LayerP d) → NodeT n d → List (NodeT n d)
  | [], _ => []
  | lp :: rest, h =>
    let h' := layerStep cfg lp origE expE mask rest.isEmpty h
    h' :: runLayers cfg origE expE mask rest h'

/-- The full `h_list` of `GNN_node_expander.forward`: entry 0 is the encoder
output with hub rows zeroed (`h = h * expander_node_mask`, gnn.py line 200),
followed by one entry per layer. -/
def expanderHistory (cfg : EngineCfg) (layers : List (LayerP d))
    (enc : NodeT n d) (origE : EdgeList n d) (expE : List (Fin n × Fin n))
    (mask : Fin n → ℚ) : List (NodeT n d) :=
  maskRows enc mask :: runLayers cfg origE expE mask layers (maskRows enc mask)

/-- The all-ones node mask used by the non-expander `GNN_node.forward`
(gnn.py line 71). -/
def onesMask (n : ℕ) : Fin n → ℚ := fun _ => 1

/-- One layer of the non-expander `GNN_node.forward` (gnn.py lines 72-88):
the main convolution with an all-ones mask, batch norm, ReLU except on the
last layer, dropout (identity in evaluation mode), optional residual. -/
def plainLayerStep (lp : ConvParams d × BN d) (residual : Bool)
    (origE : EdgeList n d) (isLast : Bool) (h : NodeT n d) : NodeT n d :=
  propagateStep lp.1 lp.2 residual h origE isLast false (onesMask n) .original

/-- Run the non-expander layers in sequence (tail of `h_list`). -/
def runPlainLayers (residual : Bool) (origE : EdgeList n d) :
    List (ConvParams d × BN d) → NodeT n d → List (NodeT n d)
  | [], _ => []
  | lp :: rest, h =>
    let h' := plainLayerStep lp residual origE rest.isEmpty h
    h' :: runPlainLayers residual origE rest h'

/-- The full `h_list` of `GNN_node.forward`: entry 0 is the encoder output,
followed by one entry per layer. -/
def plainHistory (residual : Bool) (layers : List (ConvParams d × BN d))
    (enc : NodeT n d) (origE : EdgeList n d) : List (NodeT n d) :=
  enc :: runPlainLayers residual origE layers enc

/-- The Jumping-Knowledge aggregation (gnn.py lines 90-98 and 243-249): the
`JK` string selects the last history entry or the elementwise sum of all
entries; any other string leaves `node_representation` unassigned, so the
forward pass produces no result (`UnboundLocalError` at the `return`). -/
def jkAggregate (jk : String) (hist : List (NodeT n d)) : Option (NodeT n d) :=
  if jk = "last" then hist.getLast?
  else if jk = "sum" then some (fun i k => (hist.map (fun h => h i k)).sum)
  else none

/-- `GNN_node_expander.forward` in evaluation mode: build the history and
apply the Jumping-Knowledge aggregation. -/
def expanderForward (jk : String) (cfg : EngineCfg) (layers : List (LayerP d))
    (enc : NodeT n d) (origE : EdgeList n d) (expE : List (Fin n × Fin n))
    (mask : Fin n → ℚ) : Option (NodeT n d) :=
  jkAggregate jk (expanderHistory cfg layers enc origE expE mask)

/-- `GNN_node.forward` in evaluation mode. -/
def plainForward (jk : String) (residual : Bool)
    (layers : List (ConvParams d × BN d)) (enc : NodeT n d)
    (origE : EdgeList n d) : Option (NodeT n d) :=
  jkAggregate jk (plainHistory residual layers enc origE)

/-- The identity feed-forward sublayer (realizable by the two-layer MLP with
suitably chosen weights). -/
def idMlp : Vec 1 → Vec 1 := fun v => v

/-- A constant-one feed-forward sublayer (zero first layer, bias 1 output). -/
def oneMlp : Vec 1 → Vec 1 := fun _ _ => 1

/-- Identity evaluation-mode batch norm (scale 1, shift 0). -/
def idBN : BN 1 := ⟨fun _ => 1, fun _ => 0⟩

/-- Batch norm shifting every channel by 1 (scale 1, shift 1). -/
def shiftBN : BN 1 := ⟨fun _ => 1, fun _ => 1⟩

/-- Convolution parameters: eps 0, identity sublayer. -/
def cp0 : ConvParams 1 := ⟨0, idMlp⟩

/-- Convolution parameters: eps 0, constant-one sublayer. -/
def cpOne : ConvParams 1 := ⟨0, oneMlp⟩

/-- Concrete node mask on two nodes: node 0 original (1), node 1 hub (0). -/
def cMask : Fin 2 → ℚ := fun i => if i.val = 0 then 1 else 0

/-- Concrete encoder output: every entry 1. -/
def cEnc : NodeT 2 1 := fun _ _ => 1

/-- Concrete layer input: the encoder output with hub rows zeroed. -/
def cH0 : NodeT 2 1 := maskRows cEnc cMask

/-- Engine configuration: no residual, `learn-features` strategy. -/
def cCfgLF : EngineCfg := ⟨false, .learnFeatures⟩

/-- Layer parameters whose hub-phase batch norm shifts by 1, all convolutions
identity-like. -/
def c1Lp : LayerP 1 := ⟨cp0, idBN, cp0, shiftBN, cp0, idBN, fun v => v⟩

/-- Layer parameters whose hub-phase sublayer is constant 1, everything else
identity-like. -/
def c5Lp : LayerP 1 := ⟨cp0, idBN, cpOne, idBN, cp0, idBN, fun v => v⟩

/-- C1 counterexample: in the `learn-features` hub phase with an identity-like
convolution and a batch norm whose shift is 1, node 0 has mask 1 yet its
value after the hub phase (2) differs from its value before the hub phase
(1): the phase-level bit-identity claim fails because batch normalization,
activation and dropout are applied to every row after the convolution. -/
theorem hub_phase_changes_original_row :
    cMask 0 = 1 ∧
      hubPhase cCfgLF c1Lp (mainPhase cCfgLF c1Lp [] cMask false cH0) cMask [] 0 0 ≠
        mainPhase cCfgLF c1Lp [] cMask false cH0 0 0 := by
  constructor
  · norm_num [cMask]
  · norm_num [hubPhase, hubPhaseSummation, mainPhase, propagateStep, ginconv,
      ginconvOut, dirUpdate, maskedInput, aggregate, bnApply, relu, cCfgLF, c1Lp,
      cp0, idMlp, idBN, shiftBN, cMask, cH0, cEnc, maskRows, toAttrE]

/-- C1 amended: the directional-update invariant holds at the convolution
output (gin.py lines 45-50), before batch normalization, activation, dropout
and residual are applied: the `expander`-update convolution returns every
mask=1 row unchanged, and the `original`-update convolution without input
masking returns every mask=0 row unchanged. -/
theorem conv_directional_update_frame :
    (∀ (n d : ℕ) (p : ConvParams d) (x : NodeT n d) (edges : EdgeList n d)
      (msk : Bool) (mask : Fin n → ℚ) (i : Fin n),
      mask i = 1 → ginconv p x edges msk mask .expander i = x i) ∧
    (∀ (n d : ℕ) (p : ConvParams d) (x : NodeT n d) (edges : EdgeList n d)
      (mask : Fin n → ℚ) (i : Fin n),
      mask i = 0 → ginconv p x edges false mask .original i = x i) := by
  constructor
  · intro n d p x edges msk mask i h1
    funext k
    cases msk with
    | false => simp [ginconv, dirUpdate, maskedInput, h1]
    | true => simp [ginconv, dirUpdate, maskedInput, h1]
  · intro n d p x edges mask i h0
    funext k
    simp [ginconv, dirUpdate, maskedInput, h0]

/-- Witness for `conv_directional_update_frame` at a concrete input. -/
theorem conv_directional_update_frame_witness :
    (cMask 0 = 1 ∧ ginconv cp0 cH0 [] false cMask .expander 0 = cH0 0) ∧
      (cMask 1 = 0 ∧ ginconv cp0 cH0 [] false cMask .original 1 = cH0 1) :=
  ⟨⟨by decide, conv_directional_update_frame.1 2 1 cp0 cH0 [] false cMask 0 (by decide)⟩,
    ⟨by decide, conv_directional_update_frame.2 2 1 cp0 cH0 [] cMask 1 (by decide)⟩⟩

/-- C5 counterexample: with an empty expander edge set, a `learn-features`
layer whose hub-phase sublayer is the constant 1 leaves the hub node (node 1)
at value 1 after the hub and return phases, while the main phase produced 0:
the phases are not no-ops on an empty edge set. -/
theorem empty_edges_phases_not_identity :
    layerStep cCfgLF c5Lp [] [] cMask false cH0 1 0 ≠
      mainPhase cCfgLF c5Lp [] cMask false cH0 1 0 := by
  norm_num [layerStep, returnPhase, revEdges, hubPhase, hubPhaseSummation,
    mainPhase, propagateStep, ginconv, ginconvOut, dirUpdate, maskedInput,
    aggregate, bnApply, relu, cCfgLF, c5Lp, cp0, cpOne, idMlp, oneMlp, idBN,
    cMask, cH0, cEnc, maskRows, toAttrE]

/-- C5 amended: on an empty expander edge set the aggregated message term of
the convolution is zero, so the convolution output is the directional blend
of `mlp((1+eps)·x)` with `x`; the phases are nonetheless not the identity in
general, since the feed-forward sublayer, batch normalization, activation and
dropout still apply. -/
theorem empty_edges_conv_formula :
    ∀ (n d : ℕ) (p : ConvParams d) (x : NodeT n d) (msk : Bool)
      (mask : Fin n → ℚ) (upd : UpdateNodes),
      aggregate (maskedInput x mask msk) ([] : EdgeList n d) = (fun _ _ => 0) ∧
        ginconv p x [] msk mask upd =
          dirUpdate mask upd
            (fun i => p.mlp (fun k => (1 + p.eps) * maskedInput x mask msk i k))
            (maskedInput x mask msk) := by
  intro n d p x msk mask upd
  refine ⟨rfl, ?_⟩
  have hout : ginconvOut p (maskedInput x mask msk) ([] : EdgeList n d) =
      fun i => p.mlp (fun k => (1 + p.eps) * maskedInput x mask msk i k) := by
    funext i
    simp [ginconvOut, aggregate]
  simp only [ginconv]
  rw [hout]

/-- C8: under the summation strategies the hub phase leaves every mask=1 slot
of `h` unchanged and sets every mask=0 slot to exactly the summation layer's
contribution (computed on the hub-zeroed input), for any function the
summation layer implements. -/
theorem summation_hub_phase_frame :
    ∀ (n d : ℕ) (sFn : NodeT n d → List (Fin n × Fin n) → NodeT n d)
      (h : NodeT n d) (mask : Fin n → ℚ) (expE : List (Fin n × Fin n)),
      BinaryMask mask →
      ∀ i k, hubPhaseSummation sFn h mask expE i k =
        if mask i = 1 then h i k else sFn (maskRows h mask) expE i k := by
  intro n d sFn h mask expE hbin i k
  rcases hbin i with h0 | h1
  · have hne : ¬ (mask i = 1) := by rw [h0]; norm_num
    simp [hubPhaseSummation, maskRows, h0, hne]
  · simp [hubPhaseSummation, maskRows, h1]

/-- Witness for `summation_hub_phase_frame` at a concrete input. -/
theorem summation_hub_phase_frame_witness :
    BinaryMask cMask ∧
      hubPhaseSummation (sumConv none) cH0 cMask [] 0 0 =
        if cMask 0 = 1 then cH0 0 0 else sumConv none (maskRows cH0 cMask) [] 0 0 :=
  ⟨fun i => by fin_cases i <;> norm_num [cMask],
    summation_hub_phase_frame 2 1 (sumConv none) cH0 cMask []
      (fun i => by fin_cases i <;> norm_num [cMask]) 0 0⟩

lemma runLayers_length (cfg : EngineCfg) (origE : EdgeList n d)
    (expE : List (Fin n × Fin n)) (mask : Fin n → ℚ) :
    ∀ (layers : List (LayerP d)) (h : NodeT n d),
      (runLayers cfg origE expE mask layers h).length = layers.length := by
  intro layers
  induction layers with
  | nil => intro h; rfl
  | cons lp rest ih => intro h; simp [runLayers, ih]

lemma runPlainLayers_length (residual : Bool) (origE : EdgeList n d) :
    ∀ (layers : List (ConvParams d × BN d)) (h : NodeT n d),
      (runPlainLayers residual origE layers h).length = layers.length := by
  intro layers
  induction layers with
  | nil => intro h; rfl
  | cons lp rest ih => intro h; simp [runPlainLayers, ih]

/-- C4 amended: both engines produce a history of exactly `L+1` entries;
entry 0 is the encoder output in the non-expander engine and the encoder
output with hub rows zeroed in the expander engine; `JK="last"` returns the
final history entry and `JK="sum"` the elementwise sum of all entries. -/
theorem history_length_and_jk :
    ∀ (n d : ℕ) (cfg : EngineCfg) (layers : List (LayerP d))
      (plLayers : List (ConvParams d × BN d)) (residual : Bool)
      (enc : NodeT n d) (origE : EdgeList n d) (expE : List (Fin n × Fin n))
      (mask : Fin n → ℚ),
      (plainHistory residual plLayers enc origE).length = plLayers.length + 1 ∧
      (expanderHistory cfg layers enc origE expE mask).length = layers.length + 1 ∧
      (plainHistory residual plLayers enc origE).headI = enc ∧
      (expanderHistory cfg layers enc origE expE mask).headI = maskRows enc mask ∧
      plainForward "last" residual plLayers enc origE =
        (plainHistory residual plLayers enc origE).getLast? ∧
      expanderForward "last" cfg layers enc origE expE mask =
        (expanderHistory cfg layers enc origE expE mask).getLast? ∧
      plainForward "sum" residual plLayers enc origE =
        some (fun i k =>
          ((plainHistory residual plLayers enc origE).map (fun h => h i k)).sum) ∧
      expanderForward "sum" cfg layers enc origE expE mask =
        some (fun i k =>
          ((expanderHistory cfg layers enc origE expE mask).map (fun h => h i k)).sum) := by
  intro n d cfg layers plLayers residual enc origE expE mask
  refine ⟨?_, ?_, rfl, rfl, ?_, ?_, ?_, ?_⟩
  · simp [plainHistory, runPlainLayers_length]
  · simp [expanderHistory, runLayers_length]
  · simp [plainForward, jkAggregate]
  · simp [expanderForward, jkAggregate]
  · simp [plainForward, jkAggregate]
  · simp [expanderForward, jkAggregate]

/-- Layer parameters that are identity-like everywhere. -/
def cLpT : LayerP 1 := ⟨cp0, idBN, cp0, idBN, cp0, idBN, fun v => v⟩

/-- Single-node all-hub mask. -/
def cMask0 : Fin 1 → ℚ := fun _ => 0

/-- Single-node encoder output with value 1. -/
def cEnc1 : NodeT 1 1 := fun _ _ => 1

/-- C4 counterexample: in the expander engine, history entry 0 is not the
encoder output — the hub row of the encoder output (value 1) is zeroed
before it is recorded. -/
theorem history_head_not_encoder_output :
    (expanderHistory cCfgLF [cLpT, cLpT] cEnc1 [] [] cMask0).headI 0 0 ≠ cEnc1 0 0 := by
  norm_num [expanderHistory, maskRows, cEnc1, cMask0]

/-- C10: in expander mode every hub node's initial history entry is zero, and
the whole forward output is independent of the encoder's output on hub rows:
encoders agreeing on mask=1 rows yield identical forward results. -/
theorem hub_rows_zeroed_and_encoder_ignored :
    (∀ (n d : ℕ) (cfg : EngineCfg) (layers : List (LayerP d)) (enc : NodeT n d)
      (origE : EdgeList n d) (expE : List (Fin n × Fin n)) (mask : Fin n → ℚ)
      (i : Fin n) (k : Fin d), mask i = 0 →
      (expanderHistory cfg layers enc origE expE mask).headI i k = 0) ∧
    (∀ (n d : ℕ) (jk : String) (cfg : EngineCfg) (layers : List (LayerP d))
      (enc1 enc2 : NodeT n d) (origE : EdgeList n d) (expE : List (Fin n × Fin n))
      (mask : Fin n → ℚ), BinaryMask mask →
      (∀ i, mask i = 1 → enc1 i = enc2 i) →
      expanderForward jk cfg layers enc1 origE expE mask =
        expanderForward jk cfg layers enc2 origE expE mask) := by
  constructor
  · intro n d cfg layers enc origE expE mask i k h0
    simp [expanderHistory, maskRows, h0]
  · intro n d jk cfg layers enc1 enc2 origE expE mask hbin hagree
    have hme : maskRows enc1 mask = maskRows enc2 mask := by
      funext i k
      rcases hbin i with h0 | h1
      · simp [maskRows, h0]
      · have hk := congrFun (hagree i h1) k
        simp [maskRows, h1, hk]
    simp only [expanderForward, expanderHistory, hme]

/-- Witness for `hub_rows_zeroed_and_encoder_ignored` at concrete inputs. -/
theorem hub_rows_zeroed_and_encoder_ignored_witness :
    (cMask0 0 = 0 ∧
      (expanderHistory cCfgLF [cLpT, cLpT] cEnc1 [] [] cMask0).headI 0 0 = 0) ∧
    (BinaryMask cMask ∧ (∀ i, cMask i = 1 → cEnc i = maskRows cEnc cMask i) ∧
      expanderForward "last" cCfgLF [cLpT, cLpT] cEnc [] [] cMask =
        expanderForward "last" cCfgLF [cLpT, cLpT] (maskRows cEnc cMask) [] [] cMask) :=
  ⟨⟨rfl, hub_rows_zeroed_and_encoder_ignored.1 1 1 cCfgLF [cLpT, cLpT] cEnc1 [] [] cMask0
      0 0 rfl⟩,
    ⟨fun i => by fin_cases i <;> norm_num [cMask],
      fun i h1 => by
        fin_cases i
        · funext k; norm_num [cEnc, maskRows, cMask]
        · exact absurd h1 (by norm_num [cMask]),
      hub_rows_zeroed_and_encoder_ignored.2 2 1 "last" cCfgLF [cLpT, cLpT]
        cEnc (maskRows cEnc cMask) [] [] cMask
        (fun i => by fin_cases i <;> norm_num [cMask])
        (fun i h1 => by
          fin_cases i
          · funext k; norm_num [cEnc, maskRows, cMask]
          · exact absurd h1 (by norm_num [cMask]))⟩⟩

/-- C9: the evaluation-mode forward pass is deterministic: equal parameters
and equal inputs produce equal outputs, for both engines. -/
theorem forward_deterministic :
    ∀ (n d : ℕ) (jk : String) (cfg : EngineCfg) (layers : List (LayerP d))
      (plLayers : List (ConvParams d × BN d)) (residual : Bool)
      (enc enc' : NodeT n d) (origE origE' : EdgeList n d)
      (expE expE' : List (Fin n × Fin n)) (mask mask' : Fin n → ℚ),
      enc = enc' → origE = origE' → expE = expE' → mask = mask' →
      expanderForward jk cfg layers enc origE expE mask =
          expanderForward jk cfg layers enc' origE' expE' mask' ∧
        plainForward jk residual plLayers enc origE =
          plainForward jk residual plLayers enc' origE' := by
  intro n d jk cfg layers plLayers residual enc enc' origE origE' expE expE' mask mask'
    h1 h2 h3 h4
  subst h1; subst h2; subst h3; subst h4
  exact ⟨rfl, rfl⟩

/-- Witness for `forward_deterministic` at a concrete input. -/
theorem forward_deterministic_witness :
    cEnc = cEnc ∧
      (expanderForward "last" cCfgLF [cLpT, cLpT] cEnc [] [] cMask =
          expanderForward "last" cCfgLF [cLpT, cLpT] cEnc [] [] cMask ∧
        plainForward "last" false [(cp0, idBN), (cp0, idBN)] cEnc [] =
          plainForward "last" false [(cp0, idBN), (cp0, idBN)] cEnc []) :=
  ⟨rfl, forward_deterministic 2 1 "last" cCfgLF [cLpT, cLpT]
    [(cp0, idBN), (cp0, idBN)] false cEnc cEnc [] [] [] [] cMask cMask
    rfl rfl rfl rfl⟩

/-- Configuration accepted by `GNN.__init__` (gnn.py lines 256-319), with the
presence of an externally supplied `node_encoder` recorded as a flag. -/
structure GNNConfig where
  task : String
  numLayer : ℕ
  jk : String
  gnnType : String
  graphPooling : String
  maxSeqLen : Option ℕ
  nodeEnc : Bool

/-- `GINConv.__init__` (gin.py lines 9-31): the edge-encoder dispatch accepts
exactly the task keys "mol", "ppo" and "code2" and raises
`NotImplementedError` for every other key. -/
def GINConv_init (task : String) : Except String Unit :=
  if task = "mol" then .ok ()
  else if task = "ppo" then .ok ()
  else if task = "code2" then .ok ()
  else .error "NotImplementedError"

/-- Modelled from the spec: `GCNConv.__init__` (src/models/conv/gcn.py is not
among the sources); per the spec the degree-normalized variant obeys the
identical construction contract, raising for an unknown task key of the
supported set. -/
def GCNConv_init (task : String) : Except String Unit :=
  if task = "mol" then .ok ()
  else if task = "ppa" then .ok ()
  else if task = "code2" then .ok ()
  else .error "NotImplementedError"

/-- `GNN_node.__init__` / `GNN_node_expander.__init__` (gnn.py lines 18-56,
107-168): reject `num_layer < 2`; dispatch the node encoder (asserting one is
supplied for "code2"); build one convolution per layer, which raises when the
convolution does not support the task key; reject an unknown `gnn_type`.  The
`JK` string is stored without validation. -/
def GNNnode_init (c : GNNConfig) : Except String Unit := do
  if c.numLayer < 2 then
    throw "Number of GNN layers must be greater than 1."
  if c.task = "code2" ∧ ¬ c.nodeEnc then
    throw "AssertionError: node_encoder"
  if c.gnnType = "gin" then GINConv_init c.task
  else if c.gnnType = "gcn" then GCNConv_init c.task
  else throw "Undefined GNN type"

/-- `GNN.__init__` (gnn.py lines 256-319): assert `max_seq_len` for the
sequence task, reject `num_layer < 2`, construct the node-embedding module,
and reject an unknown `graph_pooling`.  `JK` is never validated. -/
def GNN_init (c : GNNConfig) : Except String Unit := do
  if c.task = "code2" ∧ c.maxSeqLen = none then
    throw "AssertionError: max_seq_len"
  if c.numLayer < 2 then
    throw "Number of GNN layers must be greater than 1."
  GNNnode_init c
  if c.graphPooling = "sum" ∨ c.graphPooling = "mean" ∨ c.graphPooling = "max" ∨
      c.graphPooling = "attention" ∨ c.graphPooling = "set2set" then
    pure ()
  else throw "Invalid graph pooling type."

lemma getLast?_isSome_of_ne_nil {α : Type} :
    ∀ (l : List α), l ≠ [] → (l.getLast?).isSome = true
  | [], h => absurd rfl h
  | [_], _ => rfl
  | a :: b :: t, _ => by
    rw [List.getLast?_cons_cons]
    exact getLast?_isSome_of_ne_nil (b :: t) (by simp)

/-- C6 counterexample: a model whose `JK` is the unsupported string "concat"
is constructed without error, and its forward pass's Jumping-Knowledge step
then produces no result. -/
theorem unknown_jk_not_rejected_at_construction :
    GNN_init ⟨"mol", 2, "concat", "gin", "mean", none, false⟩ = .ok () ∧
      jkAggregate "concat" [cEnc1] = none := by
  constructor
  · rfl
  · rfl

/-- C6 amended: `JK` is not validated at construction — construction succeeds
for every `JK` string when the rest of the configuration is valid — and the
forward pass's Jumping-Knowledge step yields a result exactly when
`JK ∈ {"last", "sum"}` (for the engines' never-empty histories). -/
theorem jk_validated_only_at_forward :
    (∀ jk : String, GNN_init ⟨"mol", 2, jk, "gin", "mean", none, false⟩ = .ok ()) ∧
    (∀ (n d : ℕ) (jk : String) (hist : List (NodeT n d)), hist ≠ [] →
      ((jkAggregate jk hist).isSome ↔ (jk = "last" ∨ jk = "sum"))) := by
  constructor
  · intro jk
    rfl
  · intro n d jk hist hne
    by_cases hl : jk = "last"
    · simp [jkAggregate, hl, getLast?_isSome_of_ne_nil hist hne]
    · by_cases hs : jk = "sum"
      · simp [jkAggregate, hl, hs]
      · simp [jkAggregate, hl, hs]

/-- Witness for `jk_validated_only_at_forward` at a concrete input. -/
theorem jk_validated_only_at_forward_witness :
    ([cEnc1] ≠ ([] : List (NodeT 1 1))) ∧
      ((jkAggregate "last" [cEnc1]).isSome ↔ ("last" = "last" ∨ "last" = "sum")) :=
  ⟨by simp, jk_validated_only_at_forward.2 1 1 "last" [cEnc1] (by simp)⟩

/-- C7: the construction-time task dispatch of the additive convolution,
evaluated at the supported keys: "ppa" — the key `GNN_node.__init__`
dispatches an encoder for and the key the repository's runners use — raises
`NotImplementedError` inside `GINConv.__init__`, which accepts the otherwise
unused key "ppo" instead; "mol" and "code2" construct fine, and the failure
is at construction, not at call time. -/
theorem ppa_task_key_raises_in_ginconv :
    GINConv_init "ppa" = .error "NotImplementedError" ∧
      GINConv_init "mol" = .ok () ∧
      GINConv_init "ppo" = .ok () ∧
      GINConv_init "code2" = .ok () ∧
      GNNnode_init ⟨"ppa", 2, "last", "gin", "mean", none, false⟩ =
        .error "NotImplementedError" := by
  exact ⟨rfl, rfl, rfl, rfl, rfl⟩

/-- The nodes of one pooling segment: those whose (remapped) batch index
equals `g`.  This is the mathematical content of the scatter-based global
pooling operators of torch_geometric. -/
def segNodes (b : Fin n → ℕ) (g : ℕ) : List (Fin n) :=
  (List.finRange n).filter (fun i => b i = g)

/-- `global_add_pool`: per-segment sum of node vectors. -/
def sumPool (h : NodeT n d) (b : Fin n → ℕ) (g : ℕ) : Vec d :=
  fun k => ((segNodes b g).map (fun i => h i k)).sum

/-- `global_mean_pool`: per-segment mean of node vectors. -/
def meanPool (h : NodeT n d) (b : Fin n → ℕ) (g : ℕ) : Vec d :=
  fun k => sumPool h b g k / (segNodes b g).length

/-- `global_max_pool`: per-segment maximum of node vectors (0 on an empty
segment). -/
def maxPool (h : NodeT n d) (b : Fin n → ℕ) (g : ℕ) : Vec d :=
  fun k => ((segNodes b g).map (fun i => h i k)).foldl max 0

/-- Parameters of `GlobalAttention` pooling: the learned gate network
(gnn.py lines 298-300, kept opaque) and the softmax exponential (opaque, so
the statement holds for any exponential-like map). -/
structure AttnParams (d : ℕ) where
  gate : Vec d → ℚ
  smexp : ℚ → ℚ

/-- Softmax normalizer of the attention gate over one segment. -/
def attnZ (p : AttnParams d) (h : NodeT n d) (seg : List (Fin n)) : ℚ :=
  (seg.map (fun i => p.smexp (p.gate (h i)))).sum

/-- `GlobalAttention` pooling: per-segment softmax-weighted sum of node
vectors, weights from the gate network. -/
def attnPool (p : AttnParams d) (h : NodeT n d) (b : Fin n → ℕ) (g : ℕ) : Vec d :=
  fun k => ((segNodes b g).map
    (fun i => p.smexp (p.gate (h i)) / attnZ p h (segNodes b g) * h i k)).sum

/-- Parameters of `Set2Set` pooling with `processing_steps=2`: the first LSTM
query (a constant, since the initial `q_star` is zero), the second LSTM step
as a function of the first query and read vector, and the softmax
exponential; all kept opaque. -/
structure S2SParams (d : ℕ) where
  q1 : Vec d
  lstm2 : Vec d → Vec d → Vec d
  smexp : ℚ → ℚ

/-- Dot product of two embedding vectors. -/
def dotP (u v : Vec d) : ℚ := ((List.finRange d).map (fun k => u k * v k)).sum

/-- Softmax normalizer of the Set2Set attention over one segment. -/
def s2sZ (p : S2SParams d) (h : NodeT n d) (seg : List (Fin n)) (q : Vec d) : ℚ :=
  (seg.map (fun i => p.smexp (dotP (h i) q))).sum

/-- One Set2Set read: softmax-weighted sum of the segment's node vectors,
scores from dot products with the query. -/
def s2sReadStep (p : S2SParams d) (h : NodeT n d) (seg : List (Fin n)) (q : Vec d) : Vec d :=
  fun k => (seg.map
    (fun i => p.smexp (dotP (h i) q) / s2sZ p h seg q * h i k)).sum

/-- `Set2Set` pooling with two processing steps: read with the first query,
run the LSTM step, read again; the output is the double-width pair. -/
def set2setPool (p : S2SParams d) (h : NodeT n d) (b : Fin n → ℕ) (g : ℕ) :
    Vec d × Vec d :=
  (p.lstm2 p.q1 (s2sReadStep p h (segNodes b g) p.q1),
   s2sReadStep p h (segNodes b g)
     (p.lstm2 p.q1 (s2sReadStep p h (segNodes b g) p.q1)))

/-- The pooling kinds of `GNN.__init__` (gnn.py lines 291-304). -/
inductive PoolKind (d : ℕ)
  | sum
  | mean
  | max
  | attention (p : AttnParams d)
  | set2set (p : S2SParams d)

/-- Apply a pooling kind to one segment; `set2set` produces a double-width
result. -/
def applyPool : PoolKind d → NodeT n d → (Fin n → ℕ) → ℕ → (Vec d ⊕ (Vec d × Vec d))
  | .sum, h, b, g => .inl (sumPool h b g)
  | .mean, h, b, g => .inl (meanPool h b g)
  | .max, h, b, g => .inl (maxPool h b g)
  | .attention p, h, b, g => .inl (attnPool p h b g)
  | .set2set p, h, b, g => .inr (set2setPool p h b g)

/-- The expander-mode batch remapping of `GNN.forward` (gnn.py lines 327-328):
`torch.where(expander_node_mask > 0, batch, -1) + 1` sends every hub node to
the reserved segment 0 and every original node of graph `g` to segment
`g + 1`. -/
def remapBatch (b : Fin n → ℕ) (mask : Fin n → ℚ) : Fin n → ℕ :=
  fun i => if 0 < mask i then b i + 1 else 0

/-- The expander-mode readout of `GNN.forward` (gnn.py lines 324-330): pool
over the remapped batch indices and slice off segment 0, so real graph `g`
reads segment `g + 1`. -/
def expanderReadout (kind : PoolKind d) (h : NodeT n d) (b : Fin n → ℕ)
    (mask : Fin n → ℚ) (g : ℕ) : Vec d ⊕ (Vec d × Vec d) :=
  applyPool kind h (remapBatch b mask) (g + 1)

lemma map_congr_mem {α β : Type} {l : List α} {f f' : α → β}
    (h : ∀ a ∈ l, f a = f' a) : l.map f = l.map f' := by
  induction l with
  | nil => rfl
  | cons a t ih =>
    simp only [List.map_cons, h a (by simp), ih (fun b hb => h b (by simp [hb]))]

lemma mask_one_of_mem_remap_seg (b : Fin n → ℕ) (mask : Fin n → ℚ)
    (hbin : BinaryMask mask) (g : ℕ) (i : Fin n)
    (hi : i ∈ segNodes (remapBatch b mask) (g + 1)) : mask i = 1 := by
  rcases hbin i with h0 | h1
  · exfalso
    rw [segNodes, List.mem_filter] at hi
    have h2 := hi.2
    rw [remapBatch] at h2
    simp [h0] at h2
  · exact h1

lemma sumPool_congr (h1 h2 : NodeT n d) (b : Fin n → ℕ) (g : ℕ)
    (hseg : ∀ i ∈ segNodes b g, h1 i = h2 i) : sumPool h1 b g = sumPool h2 b g := by
  funext k
  rw [sumPool, sumPool]
  rw [map_congr_mem (fun i hi => by rw [hseg i hi])]

lemma meanPool_congr (h1 h2 : NodeT n d) (b : Fin n → ℕ) (g : ℕ)
    (hseg : ∀ i ∈ segNodes b g, h1 i = h2 i) : meanPool h1 b g = meanPool h2 b g := by
  funext k
  rw [meanPool, meanPool, sumPool_congr h1 h2 b g hseg]

lemma maxPool_congr (h1 h2 : NodeT n d) (b : Fin n → ℕ) (g : ℕ)
    (hseg : ∀ i ∈ segNodes b g, h1 i = h2 i) : maxPool h1 b g = maxPool h2 b g := by
  funext k
  rw [maxPool, maxPool]
  rw [map_congr_mem (fun i hi => by rw [hseg i hi])]

lemma attnPool_congr (p : AttnParams d) (h1 h2 : NodeT n d) (b : Fin n → ℕ) (g : ℕ)
    (hseg : ∀ i ∈ segNodes b g, h1 i = h2 i) :
    attnPool p h1 b g = attnPool p h2 b g := by
  have hz : attnZ p h1 (segNodes b g) = attnZ p h2 (segNodes b g) := by
    rw [attnZ, attnZ]
    rw [map_congr_mem (fun i hi => by rw [hseg i hi])]
  funext k
  rw [attnPool, attnPool]
  rw [map_congr_mem (fun i hi => by rw [hseg i hi, hz])]

lemma s2sReadStep_congr (p : S2SParams d) (h1 h2 : NodeT n d) (seg : List (Fin n))
    (q : Vec d) (hseg : ∀ i ∈ seg, h1 i = h2 i) :
    s2sReadStep p h1 seg q = s2sReadStep p h2 seg q := by
  have hz : s2sZ p h1 seg q = s2sZ p h2 seg q := by
    rw [s2sZ, s2sZ]
    rw [map_congr_mem (fun i hi => by rw [hseg i hi])]
  funext k
  rw [s2sReadStep, s2sReadStep]
  rw [map_congr_mem (fun i hi => by rw [hseg i hi, hz])]

lemma set2setPool_congr (p : S2SParams d) (h1 h2 : NodeT n d) (b : Fin n → ℕ) (g : ℕ)
    (hseg : ∀ i ∈ segNodes b g, h1 i = h2 i) :
    set2setPool p h1 b g = set2setPool p h2 b g := by
  have hr1 := s2sReadStep_congr p h1 h2 (segNodes b g) p.q1 hseg
  rw [set2setPool, set2setPool, hr1,
    s2sReadStep_congr p h1 h2 (segNodes b g) (p.lstm2 p.q1 (s2sReadStep p h2 (segNodes b g) p.q1)) hseg]

/-- C2: in expander mode, for every pooling kind the per-graph pooled vector
is independent of hub-node embedding values: two node-embedding matrices
agreeing on every mask=1 row yield identical readout results for every real
graph. -/
theorem readout_excludes_hub_values :
    ∀ (n d : ℕ) (kind : PoolKind d) (h1 h2 : NodeT n d) (b : Fin n → ℕ)
      (mask : Fin n → ℚ) (g : ℕ),
      BinaryMask mask → (∀ i, mask i = 1 → h1 i = h2 i) →
      expanderReadout kind h1 b mask g = expanderReadout kind h2 b mask g := by
  intro n d kind h1 h2 b mask g hbin hagree
  have hseg : ∀ i ∈ segNodes (remapBatch b mask) (g + 1), h1 i = h2 i :=
    fun i hi => hagree i (mask_one_of_mem_remap_seg b mask hbin g i hi)
  cases kind with
  | sum =>
    simp only [expanderReadout, applyPool]
    rw [sumPool_congr h1 h2 _ _ hseg]
  | mean =>
    simp only [expanderReadout, applyPool]
    rw [meanPool_congr h1 h2 _ _ hseg]
  | max =>
    simp only [expanderReadout, applyPool]
    rw [maxPool_congr h1 h2 _ _ hseg]
  | attention p =>
    simp only [expanderReadout, applyPool]
    rw [attnPool_congr p h1 h2 _ _ hseg]
  | set2set p =>
    simp only [expanderReadout, applyPool]
    rw [set2setPool_congr p h1 h2 _ _ hseg]

/-- Witness for `readout_excludes_hub_values` at a concrete input: sum
pooling, one graph, two nodes, with the two embedding matrices differing
only in the hub row. -/
theorem readout_excludes_hub_values_witness :
    (BinaryMask cMask ∧ (∀ i, cMask i = 1 → cEnc i = maskRows cEnc cMask i)) ∧
      expanderReadout .sum cEnc (fun _ => 0) cMask 0 =
        expanderReadout .sum (maskRows cEnc cMask) (fun _ => 0) cMask 0 :=
  ⟨⟨fun i => by fin_cases i <;> norm_num [cMask],
    fun i h1 => by
      fin_cases i
      · funext k; norm_num [cEnc, maskRows, cMask]
      · exact absurd h1 (by norm_num [cMask])⟩,
    readout_excludes_hub_values 2 1 .sum cEnc (maskRows cEnc cMask) (fun _ => 0)
      cMask 0
      (fun i => by fin_cases i <;> norm_num [cMask])
      (fun i h1 => by
        fin_cases i
        · funext k; norm_num [cEnc, maskRows, cMask]
        · exact absurd h1 (by norm_num [cMask]))⟩
